import Mathlib

/-!
Verification of the matchmaker service (src/main.rs).

The service keeps three pieces of state: a profile store (HashMap from
Uuid to Profile), a wait queue (VecDeque of Uuid) and a match store
(HashMap from Uuid to MatchInfo).  Uuids are modelled as natural
numbers; the HashMaps as association lists whose lookup returns the
most recently inserted binding for a key (observationally the same as
HashMap insert/get); the VecDeque as a list.  The two sources of
nondeterminism in `enqueue` (the freshly generated match Uuid and the
random index drawn by gen_range from the half-open range [0, len)) are
passed in as explicit parameters; an arbitrary natural is reduced
modulo the queue length to model a draw from [0, len).
-/

/-- A player profile: `struct Profile { id: Uuid, name: String }`. -/
structure Profile where
  id : Nat
  name : String
  deriving DecidableEq, Repr

/-- A recorded match: `struct MatchInfo { id, player1, player2 }`. -/
structure MatchInfo where
  id : Nat
  player1 : Nat
  player2 : Nat
  deriving DecidableEq, Repr

/-- The shared application state `AppState { profiles, queue, matches }`. -/
structure AppState where
  profiles : List (Nat × Profile)
  queue : List Nat
  «matches» : List (Nat × MatchInfo)
  deriving DecidableEq, Repr

/-- Model of `HashMap::contains_key`. -/
def mapContains (m : List (Nat × α)) (k : Nat) : Bool :=
  m.any (fun kv => kv.1 == k)

/-- Model of `HashMap::insert` (a later binding for the same key shadows an
earlier one, so consing is observationally insert-or-overwrite). -/
def mapInsert (m : List (Nat × α)) (k : Nat) (v : α) : List (Nat × α) :=
  (k, v) :: m

/-- Model of `HashMap::get`. -/
def mapGet (m : List (Nat × α)) (k : Nat) : Option α :=
  (m.find? (fun kv => kv.1 == k)).map (fun kv => kv.2)

/-- Outcome of `enqueue` (HTTP body/status collapsed to its meaning). -/
inductive EnqueueResult where
  | unknownProfile
  | alreadyQueued
  | matched (m : MatchInfo)
  | enqueued
  deriving DecidableEq, Repr

/-- Outcome of `leave_queue`. -/
inductive LeaveResult where
  | removed
  | notQueued
  deriving DecidableEq, Repr

/-- Handler `create_profile`: inserts a fresh profile under a generated id
(the generated Uuid is passed in as `newId`). -/
def create_profile (s : AppState) (newId : Nat) (name : String) :
    Profile × AppState :=
  let p : Profile := { id := newId, name := name }
  (p, { s with profiles := mapInsert s.profiles newId p })

/-- Handler `enqueue` (the JoinOrPair operation), translated branch for branch
from src/main.rs lines 129-169.  `randNat` models the entropy fed to
`gen_range(0..queue.len())`: the drawn index is `randNat % length`.
`newMatchId` models `Uuid::new_v4()` for the created match.  The Rust
code guards the pairing branch with `!queue.is_empty()` and
`queue.len() > 0` and then indexes with `remove(idx).unwrap()`; here
the lookup `queue[idx]?` succeeds exactly when the queue is non-empty,
and the `none` case is exactly the empty-queue push_back branch. -/
def enqueue (s : AppState) (profileId : Nat) (randNat : Nat) (newMatchId : Nat) :
    EnqueueResult × AppState :=
  if !(mapContains s.profiles profileId) then
    (.unknownProfile, s)
  else if s.queue.contains profileId then
    (.alreadyQueued, s)
  else
    match s.queue[randNat % s.queue.length]? with
    | some opponentId =>
        let m : MatchInfo :=
          { id := newMatchId, player1 := opponentId, player2 := profileId }
        (.matched m,
          { s with
              queue := s.queue.eraseIdx (randNat % s.queue.length),
              «matches» := mapInsert s.«matches» m.id m })
    | none =>
        (.enqueued, { s with queue := s.queue ++ [profileId] })

/-- Handler `leave_queue`, translated from src/main.rs lines 171-182:
`position` followed by `remove(pos)`. -/
def leave_queue (s : AppState) (profileId : Nat) : LeaveResult × AppState :=
  match s.queue.findIdx? (fun id => id == profileId) with
  | some pos => (.removed, { s with queue := s.queue.eraseIdx pos })
  | none => (.notQueued, s)

/-- Handler `get_queue`: read-only snapshot of the wait list. -/
def get_queue (s : AppState) : List Nat :=
  s.queue

/-- The state at process start: all three stores empty. -/
def initState : AppState :=
  { profiles := [], queue := [], «matches» := [] }

/-- The states reachable from process start by any sequence of the
state-mutating requests (profile creation, join, leave; the remaining
handlers are read-only). -/
inductive Reachable : AppState → Prop where
  | init : Reachable initState
  | register (s : AppState) (newId : Nat) (name : String) :
      Reachable s → Reachable (create_profile s newId name).2
  | join (s : AppState) (pid randNat mid : Nat) :
      Reachable s → Reachable (enqueue s pid randNat mid).2
  | leave (s : AppState) (pid : Nat) :
      Reachable s → Reachable (leave_queue s pid).2

/-! ### Concrete runs used as witnesses -/

/-- Register profile 0 under name "A". -/
def exA : AppState := (create_profile initState 0 "A").2

/-- Then register profile 1 under name "B". -/
def exB : AppState := (create_profile exA 1 "B").2

/-- Then profile 0 joins the empty queue: wait list becomes `[0]`. -/
def exQ : AppState := (enqueue exB 0 0 100).2

/-- Then profile 1 joins and is paired with 0: match 101 recorded. -/
def exM : AppState := (enqueue exQ 1 0 101).2

-- sanity examples (concrete runs of the embedding)
example :
    (enqueue { profiles := [(0, ⟨0, "A"⟩), (1, ⟨1, "B"⟩)], queue := [0],
               «matches» := [] } 1 3 9).1
      = .matched ⟨9, 0, 1⟩ := by decide

example :
    (enqueue { profiles := [(0, ⟨0, "A"⟩)], queue := [], «matches» := [] }
      0 3 9).1 = .enqueued := by decide

example :
    (enqueue { profiles := [(0, ⟨0, "A"⟩)], queue := [0], «matches» := [] }
      0 3 9).1 = .alreadyQueued := by decide

example :
    (leave_queue { profiles := [], queue := [4, 5], «matches» := [] } 5).2.queue
      = [4] := by decide

/-! ### Branch lemmas for `enqueue` -/

lemma enqueue_of_unknown (s : AppState) (pid r mid : Nat)
    (h : mapContains s.profiles pid = false) :
    enqueue s pid r mid = (.unknownProfile, s) := by
  simp [enqueue, h]

lemma enqueue_of_already (s : AppState) (pid r mid : Nat)
    (hreg : mapContains s.profiles pid = true) (hq : pid ∈ s.queue) :
    enqueue s pid r mid = (.alreadyQueued, s) := by
  simp [enqueue, hreg, hq]

lemma enqueue_of_empty (s : AppState) (pid r mid : Nat)
    (hreg : mapContains s.profiles pid = true) (hq : s.queue = []) :
    enqueue s pid r mid = (.enqueued, { s with queue := s.queue ++ [pid] }) := by
  simp [enqueue, hreg, hq]

lemma enqueue_of_pair (s : AppState) (pid r mid opp : Nat)
    (hreg : mapContains s.profiles pid = true) (hq : pid ∉ s.queue)
    (hopp : s.queue[r % s.queue.length]? = some opp) :
    enqueue s pid r mid =
      (.matched ⟨mid, opp, pid⟩,
       { s with
           queue := s.queue.eraseIdx (r % s.queue.length),
           «matches» := mapInsert s.«matches» mid ⟨mid, opp, pid⟩ }) := by
  simp [enqueue, hreg, hq, hopp]

/-- Complete case analysis of `enqueue`: exactly one of the four source
branches fires, and the lemma records both the returned value and the
successor state of each branch. -/
lemma enqueue_cases (s : AppState) (pid r mid : Nat) :
    (mapContains s.profiles pid = false ∧
       enqueue s pid r mid = (.unknownProfile, s)) ∨
    (mapContains s.profiles pid = true ∧ pid ∈ s.queue ∧
       enqueue s pid r mid = (.alreadyQueued, s)) ∨
    (mapContains s.profiles pid = true ∧ pid ∉ s.queue ∧ s.queue = [] ∧
       enqueue s pid r mid = (.enqueued, { s with queue := s.queue ++ [pid] })) ∨
    (∃ opp, mapContains s.profiles pid = true ∧ pid ∉ s.queue ∧
       r % s.queue.length < s.queue.length ∧
       s.queue[r % s.queue.length]? = some opp ∧
       enqueue s pid r mid =
         (.matched ⟨mid, opp, pid⟩,
          { s with
              queue := s.queue.eraseIdx (r % s.queue.length),
              «matches» := mapInsert s.«matches» mid ⟨mid, opp, pid⟩ })) := by
  cases hreg : mapContains s.profiles pid with
  | false => exact Or.inl ⟨rfl, enqueue_of_unknown s pid r mid hreg⟩
  | true =>
    by_cases hq : pid ∈ s.queue
    · exact Or.inr (Or.inl ⟨rfl, hq, enqueue_of_already s pid r mid hreg hq⟩)
    · cases hopp : s.queue[r % s.queue.length]? with
      | none =>
        have hempty : s.queue = [] := by
          rw [List.getElem?_eq_none_iff] at hopp
          rcases Nat.eq_zero_or_pos s.queue.length with h0 | h0
          · exact List.length_eq_zero.mp h0
          · exact absurd hopp (Nat.not_le.mpr (Nat.mod_lt r h0))
        refine Or.inr (Or.inr (Or.inl ⟨rfl, hq, hempty, ?_⟩))
        exact enqueue_of_empty s pid r mid hreg hempty
      | some opp =>
        have hlt : r % s.queue.length < s.queue.length := by
          rcases List.getElem?_eq_some_iff.mp hopp with ⟨h, _⟩
          exact h
        exact Or.inr (Or.inr (Or.inr ⟨opp, rfl, hq, hlt, rfl,
          enqueue_of_pair s pid r mid opp hreg hq hopp⟩))

/-! ### `leave_queue` and `List.erase` -/

lemma eraseIdx_findIdx_beq (l : List Nat) (p : Nat) :
    (match l.findIdx? (fun x => x == p) with
     | some i => l.eraseIdx i
     | none => l) = l.erase p := by
  induction l with
  | nil => rfl
  | cons a l ih =>
    by_cases h : a = p
    · subst h
      simp [List.findIdx?_cons]
    · have hb : (a == p) = false := by simp [h]
      rw [List.erase_cons_tail (by simp [h])]
      simp only [List.findIdx?_cons, hb, Bool.false_eq_true, if_false,
        List.findIdx?_start_succ]
      cases hfi : l.findIdx? (fun x => x == p) with
      | none =>
        rw [hfi] at ih
        simpa using ih
      | some i =>
        rw [hfi] at ih
        simpa using ih

lemma leave_queue_eq (s : AppState) (pid : Nat) :
    leave_queue s pid =
      if pid ∈ s.queue then
        (.removed, { s with queue := s.queue.erase pid })
      else
        (.notQueued, s) := by
  have key := eraseIdx_findIdx_beq s.queue pid
  unfold leave_queue
  cases hfi : s.queue.findIdx? (fun x => x == pid) with
  | none =>
    have hnot : pid ∉ s.queue := by
      rw [List.findIdx?_eq_none_iff] at hfi
      intro hmem
      simpa using hfi pid hmem
    rw [if_neg hnot]
  | some pos =>
    have hmem : pid ∈ s.queue := by
      have h1 : (s.queue.findIdx? (fun x => x == pid)).isSome := by
        rw [hfi]; rfl
      rw [List.findIdx?_isSome] at h1
      rcases List.any_eq_true.mp h1 with ⟨x, hx, hxp⟩
      exact (eq_of_beq hxp) ▸ hx
    rw [hfi] at key
    simp only [] at key
    rw [if_pos hmem, ← key]

/-! ### Projection lemmas for the handlers -/

@[simp] lemma create_profile_profiles (s : AppState) (newId : Nat) (n : String) :
    (create_profile s newId n).2.profiles = mapInsert s.profiles newId ⟨newId, n⟩ := rfl

@[simp] lemma create_profile_queue (s : AppState) (newId : Nat) (n : String) :
    (create_profile s newId n).2.queue = s.queue := rfl

@[simp] lemma create_profile_matches (s : AppState) (newId : Nat) (n : String) :
    (create_profile s newId n).2.«matches» = s.«matches» := rfl

lemma mapContains_mapInsert_of (m : List (Nat × α)) (k k' : Nat) (v : α)
    (h : mapContains m k = true) : mapContains (mapInsert m k' v) k = true := by
  simp only [mapContains, mapInsert, List.any_cons, Bool.or_eq_true]
  exact Or.inr h

/-! ### The reachable-state invariant -/

/-- Invariant maintained by every request handler: every queued
identifier is a registered profile, the queue holds at most one entry
(a join against a non-empty queue always pairs, so the queue can never
grow past one), the queue has no duplicates, and every recorded match
has two distinct players. -/
def StateInv (s : AppState) : Prop :=
  (∀ x ∈ s.queue, mapContains s.profiles x = true) ∧
  s.queue.length ≤ 1 ∧
  s.queue.Nodup ∧
  (∀ kv ∈ s.«matches», kv.2.player1 ≠ kv.2.player2)

lemma stateInv_init : StateInv initState := by
  refine ⟨?_, ?_, ?_, ?_⟩ <;> simp [initState]

lemma stateInv_register (s : AppState) (newId : Nat) (n : String)
    (h : StateInv s) : StateInv (create_profile s newId n).2 := by
  obtain ⟨h1, h2, h3, h4⟩ := h
  refine ⟨?_, by simpa using h2, by simpa using h3, by simpa using h4⟩
  intro x hx
  simp only [create_profile_queue] at hx
  simp only [create_profile_profiles]
  exact mapContains_mapInsert_of _ _ _ _ (h1 x hx)

lemma stateInv_join (s : AppState) (pid r mid : Nat)
    (h : StateInv s) : StateInv (enqueue s pid r mid).2 := by
  obtain ⟨h1, h2, h3, h4⟩ := h
  rcases enqueue_cases s pid r mid with
    ⟨_, heq⟩ | ⟨_, _, heq⟩ | ⟨hreg, hq, hempty, heq⟩ |
      ⟨opp, hreg, hq, hlt, hopp, heq⟩
  · rw [heq]; exact ⟨h1, h2, h3, h4⟩
  · rw [heq]; exact ⟨h1, h2, h3, h4⟩
  · rw [heq, hempty]
    refine ⟨?_, by simp, by simp, h4⟩
    intro x hx
    simp only [List.nil_append, List.mem_singleton] at hx
    subst hx
    exact hreg
  · rw [heq]
    refine ⟨?_, ?_, ?_, ?_⟩
    · intro x hx
      exact h1 x (List.eraseIdx_subset _ _ hx)
    · exact Nat.le_trans (List.length_eraseIdx_le _ _) h2
    · exact (List.eraseIdx_sublist _ _).nodup h3
    · intro kv hkv
      simp only [mapInsert, List.mem_cons] at hkv
      rcases hkv with hnew | hold
      · have hopmem : opp ∈ s.queue := List.getElem?_mem hopp
        have hkv1 : kv.2.player1 = opp := by rw [hnew]
        have hkv2 : kv.2.player2 = pid := by rw [hnew]
        rw [hkv1, hkv2]
        intro hcontr
        exact hq (hcontr ▸ hopmem)
      · exact h4 kv hold

lemma stateInv_leave (s : AppState) (pid : Nat)
    (h : StateInv s) : StateInv (leave_queue s pid).2 := by
  obtain ⟨h1, h2, h3, h4⟩ := h
  rw [leave_queue_eq]
  by_cases hmem : pid ∈ s.queue
  · rw [if_pos hmem]
    refine ⟨?_, ?_, ?_, h4⟩
    · intro x hx
      exact h1 x ((List.erase_sublist _ _).subset hx)
    · exact Nat.le_trans (List.length_erase_le _ _) h2
    · exact (List.erase_sublist _ _).nodup h3
  · rw [if_neg hmem]
    exact ⟨h1, h2, h3, h4⟩

/-- Every reachable state satisfies the invariant. -/
lemma reachable_inv (s : AppState) (h : Reachable s) : StateInv s := by
  induction h with
  | init => exact stateInv_init
  | register s newId n _ ih => exact stateInv_register s newId n ih
  | join s pid r mid _ ih => exact stateInv_join s pid r mid ih
  | leave s pid _ ih => exact stateInv_leave s pid ih

/-- Inversion for a pairing outcome of `enqueue`: the created match
pairs a queued opponent with the (registered, not yet queued) caller,
and the successor state removes the opponent and records the match. -/
lemma enqueue_matched_inv (s : AppState) (pid r mid : Nat) (m : MatchInfo)
    (h : (enqueue s pid r mid).1 = .matched m) :
    m.id = mid ∧ m.player2 = pid ∧ m.player1 ∈ s.queue ∧ pid ∉ s.queue ∧
    mapContains s.profiles pid = true ∧
    (enqueue s pid r mid).2 =
      { s with
          queue := s.queue.eraseIdx (r % s.queue.length),
          «matches» := mapInsert s.«matches» mid m } := by
  rcases enqueue_cases s pid r mid with
    ⟨_, heq⟩ | ⟨_, _, heq⟩ | ⟨_, _, _, heq⟩ |
      ⟨opp, hreg, hq, hlt, hopp, heq⟩
  · rw [heq] at h; simp at h
  · rw [heq] at h; simp at h
  · rw [heq] at h; simp at h
  · rw [heq] at h
    obtain rfl : MatchInfo.mk mid opp pid = m := by simpa using h
    refine ⟨rfl, rfl, List.getElem?_mem hopp, hq, hreg, ?_⟩
    rw [heq]


lemma reachable_exB : Reachable exB :=
  Reachable.register exA 1 "B"
    (Reachable.register initState 0 "A" Reachable.init)

lemma reachable_exQ : Reachable exQ :=
  Reachable.join exB 0 0 100 reachable_exB

lemma reachable_exM : Reachable exM :=
  Reachable.join exQ 1 0 101 reachable_exQ

/-! ### The claims -/

/-- C1: a JoinOrPair call with a registered profile identifier has
exactly one of three outcomes: it is a no-op answering AlreadyQueued
with the state unchanged, or it creates exactly one match (one entry
removed from the wait list, the caller not added to it, one match
recorded), or it appends exactly the caller to the wait list with the
match store unchanged.  The three disjuncts pin the returned value to
three distinct constructors, so no two of them can hold at once. -/
theorem claim1_join_or_pair_trichotomy (s : AppState) (pid r mid : Nat)
    (hreg : mapContains s.profiles pid = true) :
    ((enqueue s pid r mid).1 = .alreadyQueued ∧ (enqueue s pid r mid).2 = s) ∨
    (∃ m i, (enqueue s pid r mid).1 = EnqueueResult.matched m ∧
       i < s.queue.length ∧
       (enqueue s pid r mid).2.queue = s.queue.eraseIdx i ∧
       (enqueue s pid r mid).2.queue.length + 1 = s.queue.length ∧
       pid ∉ (enqueue s pid r mid).2.queue ∧
       (enqueue s pid r mid).2.«matches» = mapInsert s.«matches» m.id m ∧
       (enqueue s pid r mid).2.profiles = s.profiles) ∨
    ((enqueue s pid r mid).1 = .enqueued ∧
       (enqueue s pid r mid).2.queue = s.queue ++ [pid] ∧
       (enqueue s pid r mid).2.«matches» = s.«matches» ∧
       (enqueue s pid r mid).2.profiles = s.profiles) := by
  rcases enqueue_cases s pid r mid with
    ⟨hfalse, _⟩ | ⟨_, _, heq⟩ | ⟨_, _, _, heq⟩ |
      ⟨opp, _, hq, hlt, hopp, heq⟩
  · rw [hreg] at hfalse; cases hfalse
  · exact Or.inl (by rw [heq]; exact ⟨rfl, rfl⟩)
  · refine Or.inr (Or.inr ?_)
    rw [heq]
    exact ⟨rfl, rfl, rfl, rfl⟩
  · refine Or.inr (Or.inl ?_)
    rw [heq]
    refine ⟨⟨mid, opp, pid⟩, r % s.queue.length, rfl, hlt, rfl, ?_, ?_, rfl, rfl⟩
    · show (s.queue.eraseIdx (r % s.queue.length)).length + 1 = s.queue.length
      rw [List.length_eraseIdx_of_lt hlt]
      omega
    · show pid ∉ s.queue.eraseIdx (r % s.queue.length)
      exact fun hmem => hq (List.eraseIdx_subset _ _ hmem)

theorem claim1_witness :
    ((enqueue exB 0 0 50).1 = .alreadyQueued ∧ (enqueue exB 0 0 50).2 = exB) ∨
    (∃ m i, (enqueue exB 0 0 50).1 = EnqueueResult.matched m ∧
       i < exB.queue.length ∧
       (enqueue exB 0 0 50).2.queue = exB.queue.eraseIdx i ∧
       (enqueue exB 0 0 50).2.queue.length + 1 = exB.queue.length ∧
       (0 : Nat) ∉ (enqueue exB 0 0 50).2.queue ∧
       (enqueue exB 0 0 50).2.«matches» = mapInsert exB.«matches» m.id m ∧
       (enqueue exB 0 0 50).2.profiles = exB.profiles) ∨
    ((enqueue exB 0 0 50).1 = .enqueued ∧
       (enqueue exB 0 0 50).2.queue = exB.queue ++ [0] ∧
       (enqueue exB 0 0 50).2.«matches» = exB.«matches» ∧
       (enqueue exB 0 0 50).2.profiles = exB.profiles) :=
  claim1_join_or_pair_trichotomy exB 0 0 50 (by decide)

/-- C2: starting from wait list `[A]`, a join by a distinct registered
`B` creates the match `{A, B}` (here labelled player1 = A, player2 = B,
which is one of the two admissible orders), records it in the match
store, and leaves the wait list empty. -/
theorem claim2_pairing_correctness (s : AppState) (A B r mid : Nat)
    (hq : s.queue = [A]) (hAB : A ≠ B)
    (_hA : mapContains s.profiles A = true)
    (hB : mapContains s.profiles B = true) :
    enqueue s B r mid =
      (.matched ⟨mid, A, B⟩,
       { s with queue := [],
                «matches» := mapInsert s.«matches» mid ⟨mid, A, B⟩ }) ∧
    mapGet (enqueue s B r mid).2.«matches» mid = some ⟨mid, A, B⟩ := by
  have hBnot : B ∉ s.queue := by
    rw [hq]
    simp [Ne.symm hAB]
  have hopp : s.queue[r % s.queue.length]? = some A := by
    rw [hq]
    simp [Nat.mod_one]
  have herase : s.queue.eraseIdx (r % s.queue.length) = [] := by
    rw [hq]
    simp [Nat.mod_one]
  have key := enqueue_of_pair s B r mid A hB hBnot hopp
  rw [key, herase]
  refine ⟨rfl, ?_⟩
  simp [mapGet, mapInsert]

theorem claim2_witness :
    enqueue exQ 1 0 101 =
      (.matched ⟨101, 0, 1⟩,
       { exQ with queue := [],
                  «matches» := mapInsert exQ.«matches» 101 ⟨101, 0, 1⟩ }) ∧
    mapGet (enqueue exQ 1 0 101).2.«matches» 101 = some ⟨101, 0, 1⟩ :=
  claim2_pairing_correctness exQ 0 1 0 101 (by decide) (by decide)
    (by decide) (by decide)

/-- C3: starting from a duplicate-free wait list, both JoinOrPair and
Leave produce a duplicate-free wait list again. -/
theorem claim3_queue_nodup_preserved (s : AppState) (pid r mid lpid : Nat)
    (h : s.queue.Nodup) :
    (enqueue s pid r mid).2.queue.Nodup ∧
    (leave_queue s lpid).2.queue.Nodup := by
  constructor
  · rcases enqueue_cases s pid r mid with
      ⟨_, heq⟩ | ⟨_, _, heq⟩ | ⟨_, hq, hempty, heq⟩ |
        ⟨opp, _, hq, hlt, _, heq⟩
    · rw [heq]; exact h
    · rw [heq]; exact h
    · rw [heq]
      show (s.queue ++ [pid]).Nodup
      rw [hempty]
      simp
    · rw [heq]
      exact (List.eraseIdx_sublist _ _).nodup h
  · rw [leave_queue_eq]
    by_cases hmem : lpid ∈ s.queue
    · rw [if_pos hmem]
      exact (List.erase_sublist _ _).nodup h
    · rw [if_neg hmem]
      exact h

theorem claim3_witness :
    (enqueue exQ 1 0 101).2.queue.Nodup ∧
    (leave_queue exQ 0).2.queue.Nodup :=
  claim3_queue_nodup_preserved exQ 1 0 101 0 (by decide)

/-- C4: every match ever created by JoinOrPair has two distinct
participants: all matches recorded in a reachable state satisfy
player1 ≠ player2, and any pairing outcome of a further JoinOrPair
call from a reachable state again has distinct players — so no
sequence of calls can pair an identifier with itself. -/
theorem claim4_no_self_pairing (s : AppState) (h : Reachable s) :
    (∀ kv ∈ s.«matches», kv.2.player1 ≠ kv.2.player2) ∧
    (∀ pid r mid m, (enqueue s pid r mid).1 = EnqueueResult.matched m →
       m.player1 ≠ m.player2) := by
  refine ⟨(reachable_inv s h).2.2.2, ?_⟩
  intro pid r mid m hm
  obtain ⟨_, hp2, hp1mem, hnot, _, _⟩ := enqueue_matched_inv s pid r mid m hm
  intro hcontr
  rw [hp2] at hcontr
  exact hnot (hcontr ▸ hp1mem)

theorem claim4_witness :
    (∀ kv ∈ exM.«matches», kv.2.player1 ≠ kv.2.player2) ∧
    (∀ pid r mid m, (enqueue exM pid r mid).1 = EnqueueResult.matched m →
       m.player1 ≠ m.player2) :=
  claim4_no_self_pairing exM reachable_exM

/-- C5 as written is refuted: in the reachable state `exQ` (profiles 0
and 1 registered, wait list `[0]`), the join by profile 1 creates a
match whose participant `player2 = 1` was NOT a member of the wait
list at pairing time; only the opponent `player1 = 0` was. -/
theorem claim5_counterexample :
    (enqueue exQ 1 0 101).1 = EnqueueResult.matched ⟨101, 0, 1⟩ ∧
    mapContains exQ.profiles 1 = true ∧
    exQ.queue = [0] ∧
    (1 : Nat) ∉ exQ.queue := by decide

/-- C5 amended: for every match created by JoinOrPair from a reachable
state, both participants resolved to valid profiles at pairing time;
the opponent (player1) was a member of the wait list at pairing time,
while the caller (player2) was not in the wait list — it is paired
immediately upon joining. -/
theorem claim5_match_participants (s : AppState) (pid r mid : Nat)
    (m : MatchInfo) (hs : Reachable s)
    (h : (enqueue s pid r mid).1 = EnqueueResult.matched m) :
    mapContains s.profiles m.player1 = true ∧
    mapContains s.profiles m.player2 = true ∧
    m.player1 ∈ s.queue ∧
    m.player2 = pid ∧
    m.player2 ∉ s.queue := by
  obtain ⟨_, hp2, hp1mem, hnot, hreg, _⟩ := enqueue_matched_inv s pid r mid m h
  obtain ⟨hqprof, _, _, _⟩ := reachable_inv s hs
  refine ⟨hqprof m.player1 hp1mem, ?_, hp1mem, hp2, ?_⟩
  · rw [hp2]; exact hreg
  · rw [hp2]; exact hnot

theorem claim5_witness :
    mapContains exQ.profiles (0 : Nat) = true ∧
    mapContains exQ.profiles (1 : Nat) = true ∧
    (0 : Nat) ∈ exQ.queue ∧
    (1 : Nat) = 1 ∧
    (1 : Nat) ∉ exQ.queue :=
  claim5_match_participants exQ 1 0 101 ⟨101, 0, 1⟩ reachable_exQ (by decide)

/-- C6: JoinOrPair answers UnknownProfile exactly when the identifier
has no profile in the profile store, and on that failure the whole
state is unchanged. -/
theorem claim6_unknown_profile_iff (s : AppState) (pid r mid : Nat) :
    ((enqueue s pid r mid).1 = .unknownProfile ↔
       mapContains s.profiles pid = false) ∧
    (mapContains s.profiles pid = false → (enqueue s pid r mid).2 = s) := by
  rcases enqueue_cases s pid r mid with
    ⟨hfalse, heq⟩ | ⟨htrue, _, heq⟩ | ⟨htrue, _, _, heq⟩ |
      ⟨opp, htrue, _, _, _, heq⟩ <;>
    rw [heq] <;> first
      | (rw [hfalse]; simp)
      | (rw [htrue]; simp)

theorem claim6_witness :
    (enqueue exB 99 0 7).1 = .unknownProfile ∧
    (enqueue exB 99 0 7).2 = exB := by
  have h := claim6_unknown_profile_iff exB 99 0 7
  exact ⟨h.1.mpr (by decide), h.2 (by decide)⟩

/-- C7: joining twice with the same registered identifier from an
empty wait list answers Enqueued then AlreadyQueued; the second call
changes nothing and the wait list then holds that identifier exactly
once. -/
theorem claim7_join_idempotent (s : AppState) (P r1 mid1 r2 mid2 : Nat)
    (hq : s.queue = []) (hP : mapContains s.profiles P = true) :
    (enqueue s P r1 mid1).1 = .enqueued ∧
    enqueue (enqueue s P r1 mid1).2 P r2 mid2 =
      (.alreadyQueued, (enqueue s P r1 mid1).2) ∧
    (enqueue s P r1 mid1).2.queue.count P = 1 := by
  have h1 := enqueue_of_empty s P r1 mid1 hP hq
  rw [h1]
  refine ⟨rfl, ?_, ?_⟩
  · exact enqueue_of_already { s with queue := s.queue ++ [P] } P r2 mid2 hP
      (by simp)
  · show (s.queue ++ [P]).count P = 1
    rw [hq]
    simp

theorem claim7_witness :
    (enqueue exB 0 3 10).1 = .enqueued ∧
    enqueue (enqueue exB 0 3 10).2 0 4 11 =
      (.alreadyQueued, (enqueue exB 0 3 10).2) ∧
    (enqueue exB 0 3 10).2.queue.count 0 = 1 :=
  claim7_join_idempotent exB 0 3 10 4 11 (by decide) (by decide)

/-- C8: when the identifier is queued, Leave removes exactly its entry
(the remaining entries keep their relative order — the new wait list
is `erase` of the old) and answers Removed; otherwise it answers
NotQueued and changes nothing; and from any reachable state, rejoining
right after a successful Leave answers Enqueued (never AlreadyQueued):
a reachable wait list holding the identifier is exactly `[pid]`, so
the wait list is empty after the removal. -/
theorem claim8_leave_then_rejoin (s : AppState) (pid : Nat)
    (hs : Reachable s) :
    (pid ∈ s.queue →
       leave_queue s pid = (.removed, { s with queue := s.queue.erase pid })) ∧
    (pid ∉ s.queue → leave_queue s pid = (.notQueued, s)) ∧
    (∀ r mid, pid ∈ s.queue → mapContains s.profiles pid = true →
       (enqueue (leave_queue s pid).2 pid r mid).1 = .enqueued) := by
  have hle := leave_queue_eq s pid
  obtain ⟨hqprof, hlen, hnd, hm⟩ := reachable_inv s hs
  refine ⟨fun hmem => by rw [hle, if_pos hmem],
          fun hmem => by rw [hle, if_neg hmem], ?_⟩
  intro r mid hmem hreg
  have hqone : s.queue = [pid] := by
    cases hq : s.queue with
    | nil => rw [hq] at hmem; cases hmem
    | cons a t =>
      cases t with
      | nil =>
        rw [hq] at hmem
        simp only [List.mem_singleton] at hmem
        rw [hmem]
      | cons b t2 =>
        rw [hq] at hlen
        simp at hlen
  rw [hle, if_pos hmem]
  have hempty : ({ s with queue := s.queue.erase pid } : AppState).queue = [] := by
    simp [hqone]
  rw [enqueue_of_empty { s with queue := s.queue.erase pid } pid r mid hreg
    hempty]

theorem claim8_witness :
    leave_queue exQ 0 = (.removed, { exQ with queue := exQ.queue.erase 0 }) ∧
    (enqueue (leave_queue exQ 0).2 0 5 7).1 = .enqueued := by
  have h := claim8_leave_then_rejoin exQ 0 reachable_exQ
  exact ⟨h.1 (by decide), h.2.2 5 7 (by decide) (by decide)⟩

/-- C10: Leave never consults the profile store — its answer and its
effect on the wait list depend only on the wait list, and it leaves
the profile and match stores untouched; consequently, in any reachable
state, an identifier with no profile (in particular one that was never
registered, since profiles are never deleted) is not in the wait list
and Leave answers NotQueued with the state unchanged. -/
theorem claim10_leave_ignores_profiles (s : AppState) (pid : Nat)
    (hs : Reachable s) :
    (mapContains s.profiles pid = false →
       leave_queue s pid = (.notQueued, s)) ∧
    (∀ t : AppState, t.queue = s.queue →
       (leave_queue t pid).1 = (leave_queue s pid).1 ∧
       (leave_queue t pid).2.queue = (leave_queue s pid).2.queue) ∧
    (leave_queue s pid).2.profiles = s.profiles ∧
    (leave_queue s pid).2.«matches» = s.«matches» := by
  obtain ⟨hqprof, _, _, _⟩ := reachable_inv s hs
  have hle := leave_queue_eq s pid
  refine ⟨?_, ?_, ?_, ?_⟩
  · intro hnoreg
    have hnot : pid ∉ s.queue := fun hmem => by
      rw [hqprof pid hmem] at hnoreg
      cases hnoreg
    rw [hle, if_neg hnot]
  · intro t ht
    rw [hle, leave_queue_eq t, ht]
    by_cases hmem : pid ∈ s.queue
    · rw [if_pos hmem, if_pos hmem]
      exact ⟨rfl, rfl⟩
    · rw [if_neg hmem, if_neg hmem]
      exact ⟨rfl, ht⟩
  · rw [hle]
    by_cases hmem : pid ∈ s.queue
    · rw [if_pos hmem]
    · rw [if_neg hmem]
  · rw [hle]
    by_cases hmem : pid ∈ s.queue
    · rw [if_pos hmem]
    · rw [if_neg hmem]

theorem claim10_witness :
    leave_queue exQ 55 = (.notQueued, exQ) ∧
    (leave_queue { profiles := [], queue := [0], «matches» := [] } 55).1 =
      (leave_queue exQ 55).1 ∧
    (leave_queue exQ 55).2.profiles = exQ.profiles := by
  have h := claim10_leave_ignores_profiles exQ 55 reachable_exQ
  refine ⟨h.1 (by decide), ?_, h.2.2.1⟩
  exact (h.2.1 { profiles := [], queue := [0], «matches» := [] } (by decide)).1
